import Mathlib

/-!
Shallow embedding of the core of the Slovanglik vocabulary-training bot
(`main.py` and `setup_db.py`): the card-selection engine (`create_card`),
the per-user action interpreter (`process_word_actions`), and the
`add_word` / `delete_word` command handlers.

Modelling conventions:
* Database rows (`UserWord`) become plain structures; the word store is a
  `List UserWordE` and SQLAlchemy `filter_by` queries become `List.filter` /
  `List.find?` with exact field equality, in list order (`first()` is the
  first match, `delete` removes exactly that row).
* The volatile per-user session dict kept in `state_storage` becomes
  `Option TempState` (absent entry = `none`); a Python dict key that may be
  missing becomes an `Option` field defaulting to `none` / `[]`.
* Python truthiness tests (`if not x`) on optional strings and ints are
  modelled by `pyTruthyStr` / `pyTruthyNat` (None, "" and 0 are falsy).
* `random.choice(pool)` is modelled by an arbitrary index `k : Nat` taken
  modulo `pool.length`, so that a uniform draw corresponds to a uniformly
  chosen residue; `random.shuffle(options)` is modelled by an arbitrary
  list `shuffled` constrained in the theorems to be a permutation of the
  unshuffled option source (popping from the end of a shuffled list is
  itself an arbitrary permutation consumed from the front).
* `str.lower()` is modelled by `String.toLower`; all concrete inputs used
  in witnesses are already lowercase, where the two functions agree.
-/

namespace Slovanglik

/-- Python `str.lower()`: lowercase each character (stated over the
character list so that it computes inside the kernel). -/
def lower (s : String) : String := ⟨s.data.map Char.toLower⟩

/-- A row of the `user_words` table (`setup_db.py`, class `UserWord`).
`is_custom` has column default `False`. -/
structure UserWordE where
  user_id : Nat
  word : String
  translation : String
  category : String
  level : Nat
  is_custom : Bool
deriving DecidableEq

/-- A row of the `user_states` table (`setup_db.py`, class `UserState`):
the long-lived per-user level/category selection, both nullable. -/
structure UserStateE where
  level : Option Nat
  category : Option String
deriving DecidableEq

/-- The volatile per-user session dict stored in `state_storage`
(`main.py`).  Missing dict keys are `none` / `[]`. -/
structure TempState where
  recent_words : List String := []
  wrong_answers : List String := []
  target_word : Option String := none
  translate_word : Option String := none
  action : Option String := none
  category : Option String := none
  level : Option Nat := none
  russian : Option String := none
deriving DecidableEq

/-- Python truthiness of an optional string: `None` and `""` are falsy. -/
def pyTruthyStr : Option String → Bool
  | none => false
  | some s => !(s == "")

/-- Python truthiness of an optional int: `None` and `0` are falsy. -/
def pyTruthyNat : Option Nat → Bool
  | none => false
  | some n => !(n == 0)

/-- Placeholder row used as the (unreachable) default of `List.getD`. -/
def dummyWord : UserWordE := ⟨0, "", "", "", 0, false⟩

/-- `main.py` lines 489-494: filter out words whose lowercase form is in
`recent_words`; if that empties the list, fall back to the full list. -/
def availableWords (words : List UserWordE) (recent : List String) :
    List UserWordE :=
  if (words.filter (fun w => !(recent.contains (lower w.word)))).isEmpty
  then words
  else words.filter (fun w => !(recent.contains (lower w.word)))

/-- `main.py` lines 496-505: the weighted pool — every available word once,
plus two extra copies of each available word whose lowercase form is in
`wrong_answers`; (dead) fallback to the unweighted list if empty. -/
def weightedWords (avail : List UserWordE) (wrong : List String) :
    List UserWordE :=
  if (avail ++
      (avail.filter (fun w => wrong.contains (lower w.word))).flatMap
        (fun w => [w, w])).isEmpty
  then avail
  else avail ++
    (avail.filter (fun w => wrong.contains (lower w.word))).flatMap
      (fun w => [w, w])

/-- `random.choice(pool)` modelled as indexing by an arbitrary `k` modulo
the pool length. -/
def drawTarget (pool : List UserWordE) (k : Nat) : UserWordE :=
  pool.getD (k % pool.length) dummyWord

/-- `main.py` lines 512-516: append the chosen word and evict the oldest
entry (`pop(0)`) if the length exceeds 3. -/
def pushRecent (recent : List String) (t : String) : List String :=
  if (recent ++ [t]).length > 3 then (recent ++ [t]).tail
  else recent ++ [t]

/-- `unique_options.add(x.lower())` on a set modelled as a duplicate-free
list. -/
def addUnique (acc : List String) (x : String) : List String :=
  if acc.contains x then acc else acc ++ [x]

/-- `main.py` lines 527-529: `while len(unique_options) < 4 and options:
unique_options.add(options.pop().lower())`, consuming the (arbitrarily
permuted) option list from the front. -/
def optionsLoop : List String → List String → List String
  | acc, [] => acc
  | acc, x :: rest =>
    if acc.length < 4 then optionsLoop (addUnique acc (lower x)) rest
    else acc

/-- `main.py` line 524: the option source — every candidate word whose
lowercase form differs from the chosen target's. -/
def optionsSource (words : List UserWordE) (target : String) : List String :=
  (words.filter (fun w => !(lower w.word == lower target))).map
    (fun w => w.word)

/-- The set of lowercase words accumulated by repeatedly inserting the
elements of `l` into `acc` (used to describe the option set). -/
def unionUnique (acc : List String) (l : List String) : List String :=
  l.foldl addUnique acc

/-- The word drawn by `create_card` for a given nonempty candidate list. -/
def cardTarget (words : List UserWordE) (storage : Option TempState)
    (k : Nat) : UserWordE :=
  let temp := storage.getD {}
  drawTarget (weightedWords (availableWords words temp.recent_words)
    temp.wrong_answers) k

/-- The data of a rendered card: the chosen foreign word, its translation,
and the option set (as lowercase words, order irrelevant here). -/
structure CardResult where
  target_word : String
  translate : String
  options : List String
deriving DecidableEq

/-- `main.py` lines 466-550, `create_card`: returns the rendered card (or
`none` when `words` is empty) together with the new `state_storage` entry
for the user. -/
def create_card (words : List UserWordE) (storage : Option TempState)
    (k : Nat) (shuffled : List String) :
    Option CardResult × Option TempState :=
  if words.isEmpty then (none, storage)
  else
    let temp_state := storage.getD {}
    let word := cardTarget words storage k
    let target_word := word.word
    let translate := word.translation
    let recent2 := pushRecent temp_state.recent_words (lower target_word)
    let temp1 : TempState := { temp_state with
      recent_words := recent2,
      target_word := some (lower target_word),
      translate_word := some (lower translate) }
    let opts := optionsLoop [lower target_word] shuffled
    (some ⟨target_word, translate, opts⟩, some temp1)

/-- `main.py` lines 55-75, `get_all_words`: the word-store query for a
user's words in a category at the current level.  `category` is `Option`
because the caller may pass a nullable column value; a `none` category or
level matches no row (non-null columns). -/
def get_all_words (db : List UserWordE) (userId : Nat)
    (category : Option String) (st : Option UserStateE) : List UserWordE :=
  let current_level : Option Nat := match st with
    | some s => s.level
    | none => some 1
  db.filter (fun w => w.user_id == userId && some w.category == category
    && some w.level == current_level)

/-- The observable outcome of one `process_word_actions` call (which status
message is sent / which branch is taken). -/
inductive Outcome where
  | addStaged
  | addDataError
  | addDuplicate
  | addInserted
  | deleteSuccess
  | deleteNotFound
  | noActiveCard
  | correct
  | incorrect
  | pyError
deriving DecidableEq

/-- The duplicate-check key of an add commit (`main.py` lines 655-661):
owner, lowercased word, lowercased translation, lowercased category and
level must all match. -/
def addKey (userId : Nat) (english r c : String) (l : Nat) :
    UserWordE → Bool :=
  fun w => w.user_id == userId && w.word == lower english
    && w.translation == lower r && w.category == lower c && w.level == l

/-- The lookup key of a delete commit (`main.py` lines 696-701): owner,
translation equal to the (lowercased) input text, staged category and
staged level — the foreign word is not consulted. -/
def delKey (userId : Nat) (text c : String) (level : Option Nat) :
    UserWordE → Bool :=
  fun w => w.user_id == userId && w.translation == text
    && w.category == lower c && some w.level == level

/-- Everything `process_word_actions` produces or mutates: the outcome, the
card rendered (if any), the word store, and the `state_storage` entry. -/
structure ProcResult where
  outcome : Outcome
  card : Option CardResult
  db : List UserWordE
  storage : Option TempState
deriving DecidableEq

/-- `main.py` lines 625-738, `process_word_actions` (with the
`handle_text` fetch of the session dict folded in): the four branches —
staging the Russian word of an add, committing an add, committing a
delete, and quiz-answer checking.  The `pyError` outcome marks the path
where Python would raise (`None.lower()` on a missing staged category). -/
def process_word_actions (rawText : String) (userId : Nat)
    (st : UserStateE) (db : List UserWordE) (storage : Option TempState)
    (k : Nat) (shuffled : List String) : ProcResult :=
  let temp_state := storage.getD {}
  let text := lower rawText
  if temp_state.action == some "add_word" then
    let temp1 := { temp_state with
      russian := some text, action := some "add_translation" }
    ⟨.addStaged, none, db, some temp1⟩
  else if temp_state.action == some "add_translation" then
    let russian := temp_state.russian
    let tempPopped := { temp_state with russian := none }
    let english := text
    let category := temp_state.category
    let level := temp_state.level
    if !(pyTruthyStr russian) || !(pyTruthyStr category)
        || !(pyTruthyNat level) then
      ⟨.addDataError, none, db, some tempPopped⟩
    else
      let r := russian.getD ""
      let c := category.getD ""
      let l := level.getD 0
      match db.find? (addKey userId english r c l) with
      | some _ =>
        let words := get_all_words db userId (some c) (some st)
        let cardRes := create_card words (some tempPopped) k shuffled
        ⟨.addDuplicate, cardRes.1, db, none⟩
      | none =>
        let newWord : UserWordE :=
          ⟨userId, lower english, lower r, lower c, l, false⟩
        let db2 := db ++ [newWord]
        let words := get_all_words db2 userId (some c) (some st)
        let cardRes := create_card words (some tempPopped) k shuffled
        ⟨.addInserted, cardRes.1, db2, none⟩
  else if temp_state.action == some "delete_word" then
    match temp_state.category with
    | none => ⟨.pyError, none, db, storage⟩
    | some c =>
      let pred := delKey userId text c temp_state.level
      match db.find? pred with
      | some _ =>
        let db2 := db.eraseP pred
        let words := get_all_words db2 userId (some c) (some st)
        let cardRes := create_card words storage k shuffled
        ⟨.deleteSuccess, cardRes.1, db2, none⟩
      | none =>
        let words := get_all_words db userId (some c) (some st)
        let cardRes := create_card words storage k shuffled
        ⟨.deleteNotFound, cardRes.1, db, none⟩
  else
    if !(pyTruthyStr temp_state.target_word) then
      ⟨.noActiveCard, none, db, storage⟩
    else
      let target := temp_state.target_word.getD ""
      if text == target then
        let words := get_all_words db userId st.category (some st)
        let cardRes := create_card words storage k shuffled
        ⟨.correct, cardRes.1, db, cardRes.2⟩
      else
        let wa := temp_state.wrong_answers
        let wa2 := if wa.contains target then wa else wa ++ [target]
        ⟨.incorrect, none, db, some { temp_state with wrong_answers := wa2 }⟩

/-- `main.py` lines 575-597, `add_word` command handler: its effect on the
user's `state_storage` entry.  Refuses (no change) when the long-lived
state is absent or its category is falsy; the level is not checked. -/
def add_word (st : Option UserStateE) (storage : Option TempState) :
    Option TempState :=
  match st with
  | none => storage
  | some s =>
    if !(pyTruthyStr s.category) then storage
    else
      let temp := storage.getD {}
      some { temp with
        action := some "add_word",
        category := some (lower (s.category.getD "")),
        level := s.level }

/-- `main.py` lines 600-622, `delete_word` command handler: same guard and
staging as `add_word`, with action `"delete_word"`. -/
def delete_word (st : Option UserStateE) (storage : Option TempState) :
    Option TempState :=
  match st with
  | none => storage
  | some s =>
    if !(pyTruthyStr s.category) then storage
    else
      let temp := storage.getD {}
      some { temp with
        action := some "delete_word",
        category := some (lower (s.category.getD "")),
        level := s.level }

/-- A sequence of card renders, threading the session storage through. -/
def renderSeq :
    Option TempState → List (List UserWordE × Nat × List String) →
    Option TempState
  | storage, [] => storage
  | storage, (w, k, s) :: rest =>
    renderSeq (create_card w storage k s).2 rest

/-- The scenario candidates of the spec (rows seeded by
`populate_default_words`, category "числа", level 1). -/
def wOne : UserWordE := ⟨1, "one", "один", "числа", 1, false⟩

def wTwo : UserWordE := ⟨1, "two", "два", "числа", 1, false⟩

def wThree : UserWordE := ⟨1, "three", "три", "числа", 1, false⟩

def scenarioWords : List UserWordE := [wOne, wTwo, wThree]

def scenarioTemp : TempState :=
  { recent_words := ["two"], wrong_answers := ["three"] }

def scenarioPool : List UserWordE :=
  weightedWords (availableWords scenarioWords ["two"]) ["three"]

/-- A session whose recent list is already full, for the C4 witness. -/
def fifoTemp : TempState := { recent_words := ["a", "b", "c"] }

/-- The session `create_card [wOne] (some fifoTemp) 0 []` produces. -/
def fifoResTemp : TempState :=
  { recent_words := ["b", "c", "one"],
    target_word := some "one",
    translate_word := some "один" }

/-- A session with a fully staged add commit (the spec scenario: user sent
"Добавить слово +" then "стол", about to send "table"). -/
def addTemp : TempState :=
  { action := some "add_translation",
    russian := some "стол",
    category := some "мебель",
    level := some 3 }

/-- A session with a staged delete commit in category "мебель", level 3. -/
def delTemp : TempState :=
  { action := some "delete_word",
    category := some "мебель",
    level := some 3 }

/-! ## Helper lemmas -/

lemma mem_flatMap_pair {l : List UserWordE} {x : UserWordE}
    (h : x ∈ l.flatMap (fun w => [w, w])) : x ∈ l := by
  rcases List.mem_flatMap.mp h with ⟨w, hw, hx⟩
  rcases List.mem_cons.mp hx with h1 | h1
  · exact h1 ▸ hw
  · rcases List.mem_cons.mp h1 with h2 | h2
    · exact h2 ▸ hw
    · cases h2

lemma mem_weightedWords {avail : List UserWordE} {wrong : List String}
    {x : UserWordE} (h : x ∈ weightedWords avail wrong) : x ∈ avail := by
  unfold weightedWords at h
  split at h
  · exact h
  · rcases List.mem_append.mp h with h1 | h1
    · exact h1
    · exact List.mem_filter.mp (mem_flatMap_pair h1) |>.1

lemma mem_availableWords {words : List UserWordE} {recent : List String}
    {x : UserWordE} (h : x ∈ availableWords words recent) : x ∈ words := by
  unfold availableWords at h
  split at h
  · exact h
  · exact (List.mem_filter.mp h).1

lemma availableWords_ne_nil {words : List UserWordE} {recent : List String}
    (h : words ≠ []) : availableWords words recent ≠ [] := by
  unfold availableWords
  split
  · exact h
  · next hne => exact fun hc => hne (List.isEmpty_iff.mpr hc)

lemma weightedWords_ne_nil {avail : List UserWordE} {wrong : List String}
    (h : avail ≠ []) : weightedWords avail wrong ≠ [] := by
  unfold weightedWords
  split
  · exact h
  · next hne => exact fun hc => hne (List.isEmpty_iff.mpr hc)

lemma drawTarget_mem {pool : List UserWordE} (k : Nat) (h : pool ≠ []) :
    drawTarget pool k ∈ pool := by
  have hl : 0 < pool.length := List.length_pos.mpr h
  have hm : k % pool.length < pool.length := Nat.mod_lt _ hl
  unfold drawTarget
  rw [List.getD_eq_getElem?_getD, List.getElem?_eq_getElem hm]
  exact List.getElem_mem hm

lemma cardTarget_mem {words : List UserWordE} (storage : Option TempState)
    (k : Nat) (h : words ≠ []) : cardTarget words storage k ∈ words := by
  have h1 := @availableWords_ne_nil words ((storage.getD {}).recent_words) h
  have h2 := @weightedWords_ne_nil _ ((storage.getD {}).wrong_answers) h1
  exact mem_availableWords (mem_weightedWords (drawTarget_mem k h2))

lemma count_flatMap_pair (a : UserWordE) (l : List UserWordE) :
    (l.flatMap (fun w => [w, w])).count a = 2 * l.count a := by
  induction l with
  | nil => rfl
  | cons x xs ih =>
    simp only [List.flatMap_cons, List.count_append, List.count_cons,
      List.count_nil, ih]
    by_cases hx : (x == a) = true
    · simp only [hx, if_true]
      omega
    · simp only [eq_false_of_ne_true hx, if_false]
      omega

lemma count_filter_eq (p : UserWordE → Bool) (a : UserWordE)
    (l : List UserWordE) :
    (l.filter p).count a = if p a then l.count a else 0 := by
  induction l with
  | nil => simp
  | cons x xs ih =>
    by_cases hx : x = a
    · subst hx
      by_cases hp : p x
      · simp [List.filter_cons, hp, List.count_cons, ih]
      · simp [List.filter_cons, hp, List.count_cons, ih]
    · have hbx : (x == a) = false := beq_eq_false_iff_ne.mpr hx
      by_cases hp : p x
      · simp [List.filter_cons, hp, List.count_cons, ih, hbx]
      · simp [List.filter_cons, hp, List.count_cons, ih, hbx]

/-- Closed form of `create_card` on a nonempty candidate list. -/
lemma create_card_eq (words : List UserWordE) (storage : Option TempState)
    (k : Nat) (shuffled : List String) (hw : words ≠ []) :
    create_card words storage k shuffled =
      (some ⟨(cardTarget words storage k).word,
             (cardTarget words storage k).translation,
             optionsLoop [lower (cardTarget words storage k).word] shuffled⟩,
       some { storage.getD {} with
         recent_words := pushRecent (storage.getD {}).recent_words
           (lower (cardTarget words storage k).word),
         target_word := some (lower (cardTarget words storage k).word),
         translate_word :=
           some (lower (cardTarget words storage k).translation) }) := by
  unfold create_card
  rw [if_neg]
  simp [List.isEmpty_iff, hw]

/-! ## Claims -/

/-- C9: when the candidate word list is empty, `create_card` fails (no card
is produced) and performs no state mutation: the session entry — hence
`recent_words`, `wrong_answers`, `target_word` and `translate_word` — is
returned exactly as it was. -/
theorem create_card_empty_no_mutation (storage : Option TempState) (k : Nat)
    (shuffled : List String) :
    create_card [] storage k shuffled = (none, storage) := rfl

/-- C1: the weighted pool contains each surviving candidate with weight 3
when its lowercase word is among the wrong answers and weight 1 otherwise;
in the spec's scenario (candidates one/two/three, recent `two`, wrong
`three`) the pool holds `one` once, `three` three times and `two` never,
and a uniform draw (uniform residue `k % pool.length`) yields `three` with
probability 3/4 and `one` with probability 1/4. -/
theorem weighted_pool_spec :
    (∀ (words : List UserWordE) (recent wrong : List String)
        (c : UserWordE),
        (weightedWords (availableWords words recent) wrong).count c =
          (if wrong.contains (lower c.word) then 3 else 1) *
            (availableWords words recent).count c) ∧
    scenarioPool =
      weightedWords (availableWords scenarioWords
        scenarioTemp.recent_words) scenarioTemp.wrong_answers ∧
    scenarioPool.count wOne = 1 ∧
    scenarioPool.count wThree = 3 ∧
    scenarioPool.count wTwo = 0 ∧
    scenarioPool.length = 4 ∧
    ((List.range scenarioPool.length).countP
      (fun k => (drawTarget scenarioPool k).word == "three")) = 3 ∧
    ((List.range scenarioPool.length).countP
      (fun k => (drawTarget scenarioPool k).word == "one")) = 1 ∧
    (∀ k : Nat, (drawTarget scenarioPool k).word ≠ "two") := by
  refine ⟨?_, by decide, by decide, by decide, by decide, by decide,
    by decide, by decide, ?_⟩
  · intro words recent wrong c
    generalize availableWords words recent = avail
    unfold weightedWords
    split
    · next hemp =>
      rcases List.append_eq_nil.mp (List.isEmpty_iff.mp hemp) with ⟨h1, _⟩
      subst h1
      simp
    · rw [List.count_append, count_flatMap_pair, count_filter_eq]
      by_cases hc : wrong.contains (lower c.word) = true
      · simp only [hc, if_true]
        omega
      · have hm : lower c.word ∉ wrong := by simpa using hc
        simp [hm]
  · intro k
    have h : drawTarget scenarioPool k ∈ scenarioPool :=
      drawTarget_mem k (by decide)
    intro hw
    have : ∀ x ∈ scenarioPool, x.word ≠ "two" := by decide
    exact this _ h hw

/-- C1 witness: the weight equation evaluated at the scenario's missed
word `three`, and a concrete draw index never yielding the excluded
word `two`. -/
theorem weighted_pool_spec_witness :
    (weightedWords (availableWords scenarioWords ["two"])
        ["three"]).count wThree =
      (if ["three"].contains (lower wThree.word) then 3 else 1) *
        (availableWords scenarioWords ["two"]).count wThree ∧
    (drawTarget scenarioPool 7).word ≠ "two" :=
  ⟨weighted_pool_spec.1 scenarioWords ["two"] ["three"] wThree,
   weighted_pool_spec.2.2.2.2.2.2.2.2 7⟩

/-- C2: for a nonempty candidate list the target is always drawn from
`availableWords` — the candidates whose lowercase word is not recent, with
fallback to the full list exactly when that filter is empty — so the
chosen word's lowercase form is never in `recent_words` unless every
candidate's is. -/
theorem create_card_recency_exclusion (words : List UserWordE)
    (storage : Option TempState) (k : Nat) (shuffled : List String)
    (hw : words ≠ []) :
    ∃ cr temp1,
      create_card words storage k shuffled = (some cr, some temp1) ∧
      (∃ w ∈ availableWords words (storage.getD {}).recent_words,
        cr.target_word = w.word) ∧
      (words.filter (fun w =>
          !((storage.getD {}).recent_words.contains (lower w.word))) ≠ [] →
        availableWords words (storage.getD {}).recent_words =
          words.filter (fun w =>
            !((storage.getD {}).recent_words.contains (lower w.word))) ∧
        ((storage.getD {}).recent_words.contains (lower cr.target_word))
          = false) ∧
      (words.filter (fun w =>
          !((storage.getD {}).recent_words.contains (lower w.word))) = [] →
        availableWords words (storage.getD {}).recent_words = words) := by
  have htgt : cardTarget words storage k ∈
      availableWords words (storage.getD {}).recent_words := by
    have h1 := @availableWords_ne_nil words
      ((storage.getD {}).recent_words) hw
    have h2 := @weightedWords_ne_nil _
      ((storage.getD {}).wrong_answers) h1
    exact mem_weightedWords (drawTarget_mem k h2)
  refine ⟨_, _, create_card_eq words storage k shuffled hw,
    ⟨cardTarget words storage k, htgt, rfl⟩, ?_, ?_⟩
  · intro hne
    have heq : availableWords words (storage.getD {}).recent_words =
        words.filter (fun w =>
          !((storage.getD {}).recent_words.contains (lower w.word))) := by
      unfold availableWords
      rw [if_neg]
      exact fun hemp => hne (List.isEmpty_iff.mp hemp)
    refine ⟨heq, ?_⟩
    have := (List.mem_filter.mp (heq ▸ htgt)).2
    simpa using this
  · intro hemp
    unfold availableWords
    rw [if_pos (List.isEmpty_iff.mpr hemp)]

/-- C2 witness: in the spec scenario (candidates one/two/three with `two`
recent) the restriction is nonempty, the card is produced and its target
is not a recent word. -/
theorem create_card_recency_exclusion_witness :
    ∃ cr temp1,
      create_card scenarioWords (some scenarioTemp) 0 ["two", "three"] =
        (some cr, some temp1) ∧
      (∃ w ∈ availableWords scenarioWords
          ((some scenarioTemp).getD {}).recent_words,
        cr.target_word = w.word) ∧
      (scenarioWords.filter (fun w =>
          !(((some scenarioTemp).getD {}).recent_words.contains
            (lower w.word))) ≠ [] →
        availableWords scenarioWords
            ((some scenarioTemp).getD {}).recent_words =
          scenarioWords.filter (fun w =>
            !(((some scenarioTemp).getD {}).recent_words.contains
              (lower w.word))) ∧
        (((some scenarioTemp).getD {}).recent_words.contains
          (lower cr.target_word)) = false) ∧
      (scenarioWords.filter (fun w =>
          !(((some scenarioTemp).getD {}).recent_words.contains
            (lower w.word))) = [] →
        availableWords scenarioWords
          ((some scenarioTemp).getD {}).recent_words = scenarioWords) :=
  create_card_recency_exclusion scenarioWords (some scenarioTemp) 0
    ["two", "three"] (by decide)

lemma mem_addUnique {acc : List String} {x y : String} :
    y ∈ addUnique acc x ↔ y ∈ acc ∨ y = x := by
  unfold addUnique
  split
  · next hc =>
    simp only [List.contains_eq_any_beq] at hc
    constructor
    · exact Or.inl
    · rintro (h | rfl)
      · exact h
      · simpa using hc
  · simp

lemma addUnique_nodup {acc : List String} {x : String} (h : acc.Nodup) :
    (addUnique acc x).Nodup := by
  unfold addUnique
  split
  · exact h
  · next hc =>
    rw [List.nodup_append]
    refine ⟨h, List.nodup_singleton x, ?_⟩
    intro a ha hax
    rcases List.mem_singleton.mp hax with rfl
    exact hc (by simpa using ha)

lemma length_le_addUnique (acc : List String) (x : String) :
    acc.length ≤ (addUnique acc x).length := by
  unfold addUnique
  split
  · exact Nat.le_refl _
  · simp

lemma length_addUnique_le (acc : List String) (x : String) :
    (addUnique acc x).length ≤ acc.length + 1 := by
  unfold addUnique
  split
  · exact Nat.le_succ _
  · simp

lemma unionUnique_nil (acc : List String) : unionUnique acc [] = acc := rfl

lemma unionUnique_cons (acc : List String) (x : String) (l : List String) :
    unionUnique acc (x :: l) = unionUnique (addUnique acc x) l := rfl

lemma length_le_unionUnique (acc : List String) (l : List String) :
    acc.length ≤ (unionUnique acc l).length := by
  induction l generalizing acc with
  | nil => exact Nat.le_refl _
  | cons x rest ih =>
    rw [unionUnique_cons]
    exact Nat.le_trans (length_le_addUnique acc x) (ih (addUnique acc x))

lemma unionUnique_nodup {acc : List String} (l : List String)
    (h : acc.Nodup) : (unionUnique acc l).Nodup := by
  induction l generalizing acc with
  | nil => exact h
  | cons x rest ih =>
    rw [unionUnique_cons]
    exact ih (addUnique_nodup h)

lemma mem_unionUnique {acc : List String} {l : List String} {y : String} :
    y ∈ unionUnique acc l ↔ y ∈ acc ∨ y ∈ l := by
  induction l generalizing acc with
  | nil => simp [unionUnique_nil]
  | cons x rest ih =>
    rw [unionUnique_cons, ih, mem_addUnique]
    constructor
    · rintro ((h | rfl) | h)
      · exact Or.inl h
      · exact Or.inr (List.mem_cons_self _ _)
      · exact Or.inr (List.mem_cons_of_mem _ h)
    · rintro (h | h)
      · exact Or.inl (Or.inl h)
      · rcases List.mem_cons.mp h with rfl | h
        · exact Or.inl (Or.inr rfl)
        · exact Or.inr h

lemma optionsLoop_nodup {acc : List String} (l : List String)
    (h : acc.Nodup) : (optionsLoop acc l).Nodup := by
  induction l generalizing acc with
  | nil => exact h
  | cons x rest ih =>
    unfold optionsLoop
    split
    · exact ih (addUnique_nodup h)
    · exact h

lemma subset_optionsLoop {acc : List String} (l : List String) :
    acc ⊆ optionsLoop acc l := by
  induction l generalizing acc with
  | nil => exact fun _ h => h
  | cons x rest ih =>
    unfold optionsLoop
    split
    · exact fun y hy => ih (mem_addUnique.mpr (Or.inl hy))
    · exact fun _ h => h

lemma optionsLoop_length {acc : List String} (l : List String)
    (h : acc.Nodup) (h4 : acc.length ≤ 4) :
    (optionsLoop acc l).length =
      min 4 (unionUnique acc (l.map lower)).length := by
  induction l generalizing acc with
  | nil =>
    simp only [optionsLoop, List.map_nil, unionUnique_nil]
    omega
  | cons x rest ih =>
    unfold optionsLoop
    rw [List.map_cons, unionUnique_cons]
    split
    · next hlt =>
      exact ih (addUnique_nodup h)
        (Nat.le_trans (length_addUnique_le acc (lower x)) hlt)
    · next hge =>
      have h1 : acc.length = 4 := by omega
      have h2 := length_le_unionUnique (addUnique acc (lower x))
        (rest.map lower)
      have h3 := length_le_addUnique acc (lower x)
      omega

/-- C3: for a nonempty candidate list (and `shuffled` an arbitrary
permutation of the non-target candidate words, modelling
`random.shuffle`), the option set contains the lowercased target exactly
once, has no duplicate lowercase words, and has size
`min 4 (number of distinct lowercase candidate words)`. -/
theorem create_card_options_spec (words : List UserWordE)
    (storage : Option TempState) (k : Nat) (shuffled : List String)
    (hw : words ≠ [])
    (hs : shuffled.Perm
      (optionsSource words (cardTarget words storage k).word)) :
    ∃ cr temp1,
      create_card words storage k shuffled = (some cr, some temp1) ∧
      lower cr.target_word ∈ cr.options ∧
      cr.options.count (lower cr.target_word) = 1 ∧
      cr.options.Nodup ∧
      cr.options.length =
        min 4 ((words.map (fun w => lower w.word)).dedup.length) := by
  refine ⟨_, _, create_card_eq words storage k shuffled hw, ?_, ?_, ?_, ?_⟩
  · exact subset_optionsLoop shuffled (List.mem_singleton.mpr rfl)
  · exact List.count_eq_one_of_mem
      (optionsLoop_nodup shuffled (List.nodup_singleton _))
      (subset_optionsLoop shuffled (List.mem_singleton.mpr rfl))
  · exact optionsLoop_nodup shuffled (List.nodup_singleton _)
  · rw [optionsLoop_length shuffled (List.nodup_singleton _) (by simp)]
    congr 1
    have htgt : cardTarget words storage k ∈ words := cardTarget_mem _ k hw
    have hmem : ∀ y : String,
        y ∈ unionUnique [lower (cardTarget words storage k).word]
            (shuffled.map lower) ↔
          y ∈ words.map (fun w => lower w.word) := by
      intro y
      rw [mem_unionUnique]
      constructor
      · rintro (hy | hy)
        · rcases List.mem_singleton.mp hy with rfl
          exact List.mem_map.mpr ⟨_, htgt, rfl⟩
        · have hy2 := (hs.map lower).mem_iff.mp hy
          rcases List.mem_map.mp hy2 with ⟨z, hz, rfl⟩
          rcases List.mem_map.mp hz with ⟨w, hw2, rfl⟩
          exact List.mem_map.mpr ⟨w, (List.mem_filter.mp hw2).1, rfl⟩
      · intro hy
        rcases List.mem_map.mp hy with ⟨w, hw2, rfl⟩
        by_cases hcase :
            lower w.word = lower (cardTarget words storage k).word
        · exact Or.inl (List.mem_singleton.mpr hcase)
        · refine Or.inr ((hs.map lower).mem_iff.mpr ?_)
          refine List.mem_map.mpr ⟨w.word, ?_, rfl⟩
          refine List.mem_map.mpr ⟨w, List.mem_filter.mpr ⟨hw2, ?_⟩, rfl⟩
          simpa using hcase
    have hnd1 : (unionUnique [lower (cardTarget words storage k).word]
        (shuffled.map lower)).Nodup :=
      unionUnique_nodup _ (List.nodup_singleton _)
    have hperm := (List.perm_ext_iff_of_nodup hnd1
      (List.nodup_dedup _)).mpr (fun y => by
        rw [hmem y, List.mem_dedup])
    exact hperm.length_eq

/-- C3 witness: the spec scenario with target `one` (draw index 0) and the
remaining words shuffled; three distinct words exist, so exactly three
options come back. -/
theorem create_card_options_spec_witness :
    ∃ cr temp1,
      create_card scenarioWords (some scenarioTemp) 0 ["three", "two"] =
        (some cr, some temp1) ∧
      lower cr.target_word ∈ cr.options ∧
      cr.options.count (lower cr.target_word) = 1 ∧
      cr.options.Nodup ∧
      cr.options.length =
        min 4 ((scenarioWords.map (fun w => lower w.word)).dedup.length) :=
  create_card_options_spec scenarioWords (some scenarioTemp) 0
    ["three", "two"] (by decide) (by decide)

lemma pushRecent_length_le {recent : List String} (t : String)
    (h : recent.length ≤ 3) : (pushRecent recent t).length ≤ 3 := by
  unfold pushRecent
  split
  · next hgt =>
    simp only [List.length_tail, List.length_append, List.length_cons,
      List.length_nil]
    omega
  · next hle => simp at hle ⊢; omega

lemma create_card_recent_le {words : List UserWordE}
    {storage : Option TempState} {k : Nat} {shuffled : List String}
    (h : ((storage.getD {}).recent_words).length ≤ 3) :
    (((create_card words storage k shuffled).2.getD {}).recent_words).length
      ≤ 3 := by
  cases hW : words with
  | nil => simpa [create_card] using h
  | cons a as =>
    rw [← hW, create_card_eq words storage k shuffled (by simp [hW])]
    exact pushRecent_length_le _ h

/-- C4: `recent_words` is a bounded FIFO.  (1) Every successful card render
replaces it by `pushRecent old (lower target)`; (2) `pushRecent` appends at
the end and drops the oldest (front) entry exactly when the length would
exceed 3, the result is a suffix of `old ++ [new]`, and length ≤ 3 is
preserved; (3) after any sequence of card renders starting from a fresh
session, the list has length ≤ 3. -/
theorem recent_words_fifo :
    (∀ (words : List UserWordE) (storage : Option TempState) (k : Nat)
        (shuffled : List String) (cr : CardResult) (temp1 : TempState),
        create_card words storage k shuffled = (some cr, some temp1) →
        temp1.recent_words =
          pushRecent (storage.getD {}).recent_words (lower cr.target_word))
    ∧
    (∀ (recent : List String) (t : String),
        pushRecent recent t =
          (if (recent ++ [t]).length > 3 then (recent ++ [t]).tail
           else recent ++ [t]) ∧
        (∃ pre, pre ++ pushRecent recent t = recent ++ [t]) ∧
        (recent.length ≤ 3 → (pushRecent recent t).length ≤ 3)) ∧
    (∀ steps, (((renderSeq none steps).getD {}).recent_words).length ≤ 3)
    := by
  refine ⟨?_, ?_, ?_⟩
  · intro words storage k shuffled cr temp1 h
    cases hW : words with
    | nil => simp [hW, create_card] at h
    | cons a as =>
      rw [create_card_eq words storage k shuffled (by simp [hW])] at h
      have h1 := congrArg Prod.fst h
      have h2 := congrArg Prod.snd h
      simp only at h1 h2
      cases Option.some.inj h1
      cases Option.some.inj h2
      rfl
  · intro recent t
    refine ⟨rfl, ?_, pushRecent_length_le t⟩
    unfold pushRecent
    split
    · next hgt =>
      have hne : recent ++ [t] ≠ [] := by simp
      exact ⟨[(recent ++ [t]).head hne], List.head_cons_tail _ hne⟩
    · exact ⟨[], rfl⟩
  · intro steps
    suffices h : ∀ (steps : List (List UserWordE × Nat × List String))
        (storage : Option TempState),
        (((storage.getD {}).recent_words).length ≤ 3) →
        (((renderSeq storage steps).getD {}).recent_words).length ≤ 3 by
      exact h steps none (by simp)
    intro steps
    induction steps with
    | nil => exact fun storage h => h
    | cons s rest ih =>
      rcases s with ⟨w, k, sh⟩
      exact fun storage h => ih _ (create_card_recent_le h)

/-- C4 witness: a concrete render on a session whose recent list is
already full evicts the oldest entry. -/
theorem recent_words_fifo_witness :
    ∃ cr temp1,
      create_card [wOne] (some fifoTemp) 0 [] = (some cr, some temp1) ∧
      temp1.recent_words = ["b", "c", "one"] ∧
      temp1.recent_words =
        pushRecent ((some fifoTemp : Option TempState).getD {}).recent_words
          (lower cr.target_word) := by
  refine ⟨⟨"one", "один", ["one"]⟩, fifoResTemp, by decide, by decide, ?_⟩
  exact recent_words_fifo.1 [wOne] (some fifoTemp) 0 []
    ⟨"one", "один", ["one"]⟩ fifoResTemp (by decide)

/-- C5: with no add/delete action pending, (a) if no target word is set
the call reports `noActiveCard` and changes nothing; (b) a lowercased
answer equal to the target records a correct answer — word store
untouched, `wrong_answers` unchanged, a new card rendered; (c) any other
answer records an incorrect answer — the target is appended to
`wrong_answers` exactly when it is absent, and no new card is rendered
(target word, translation and recent words unchanged). -/
theorem quiz_answer_spec (rawText : String) (userId : Nat)
    (st : UserStateE) (db : List UserWordE) (storage : Option TempState)
    (k : Nat) (shuffled : List String)
    (h1 : (storage.getD {}).action ≠ some "add_word")
    (h2 : (storage.getD {}).action ≠ some "add_translation")
    (h3 : (storage.getD {}).action ≠ some "delete_word") :
    (pyTruthyStr (storage.getD {}).target_word = false →
      process_word_actions rawText userId st db storage k shuffled =
        ⟨.noActiveCard, none, db, storage⟩) ∧
    (pyTruthyStr (storage.getD {}).target_word = true →
      lower rawText = (storage.getD {}).target_word.getD "" →
      get_all_words db userId st.category (some st) ≠ [] →
      (process_word_actions rawText userId st db storage k shuffled).outcome
          = .correct ∧
      (process_word_actions rawText userId st db storage k shuffled).db
          = db ∧
      (process_word_actions rawText userId st db storage k
          shuffled).card.isSome = true ∧
      (((process_word_actions rawText userId st db storage k
          shuffled).storage.getD {}).wrong_answers)
        = (storage.getD {}).wrong_answers) ∧
    (pyTruthyStr (storage.getD {}).target_word = true →
      lower rawText ≠ (storage.getD {}).target_word.getD "" →
      process_word_actions rawText userId st db storage k shuffled =
        ⟨.incorrect, none, db, some { storage.getD {} with
          wrong_answers :=
            if (storage.getD {}).wrong_answers.contains
                ((storage.getD {}).target_word.getD "")
            then (storage.getD {}).wrong_answers
            else (storage.getD {}).wrong_answers ++
              [(storage.getD {}).target_word.getD ""] }⟩) := by
  have e1 : ((storage.getD {}).action == some "add_word") = false := by
    simpa using h1
  have e2 : ((storage.getD {}).action == some "add_translation")
      = false := by simpa using h2
  have e3 : ((storage.getD {}).action == some "delete_word") = false := by
    simpa using h3
  refine ⟨?_, ?_, ?_⟩
  · intro htw
    simp [process_word_actions, e1, e2, e3, htw]
  · intro htw heq hwords
    have hbe : (lower rawText == (storage.getD {}).target_word.getD "")
        = true := beq_iff_eq.mpr heq
    have hres : process_word_actions rawText userId st db storage k
        shuffled =
        ⟨.correct,
         (create_card (get_all_words db userId st.category (some st))
            storage k shuffled).1, db,
         (create_card (get_all_words db userId st.category (some st))
            storage k shuffled).2⟩ := by
      simp [process_word_actions, e1, e2, e3, htw, hbe]
    rw [hres]
    rw [create_card_eq _ storage k shuffled hwords]
    exact ⟨rfl, rfl, rfl, rfl⟩
  · intro htw hne
    have hbe : (lower rawText == (storage.getD {}).target_word.getD "")
        = false := beq_eq_false_iff_ne.mpr hne
    simp [process_word_actions, e1, e2, e3, htw, hbe]

/-- C5 witness: with target word "one" set, the wrong answer "two" yields
`incorrect` and appends "one" to the wrong answers; with no target, the
`noActiveCard` error path is taken with no change. -/
theorem quiz_answer_spec_witness :
    (process_word_actions "two" 1 ⟨some 1, some "числа"⟩ scenarioWords
        (some fifoResTemp) 0 [] =
      ⟨.incorrect, none, scenarioWords, some { fifoResTemp with
        wrong_answers :=
          if fifoResTemp.wrong_answers.contains
              (fifoResTemp.target_word.getD "")
          then fifoResTemp.wrong_answers
          else fifoResTemp.wrong_answers ++
            [fifoResTemp.target_word.getD ""] }⟩) ∧
    (process_word_actions "two" 1 ⟨some 1, some "числа"⟩ scenarioWords
        none 0 [] =
      ⟨.noActiveCard, none, scenarioWords, none⟩) := by
  constructor
  · exact (quiz_answer_spec "two" 1 ⟨some 1, some "числа"⟩ scenarioWords
      (some fifoResTemp) 0 [] (by decide) (by decide) (by decide)).2.2
      (by decide) (by decide)
  · exact (quiz_answer_spec "two" 1 ⟨some 1, some "числа"⟩ scenarioWords
      none 0 [] (by decide) (by decide) (by decide)).1 (by decide)

lemma find?_append_none {p : UserWordE → Bool} {l₁ : List UserWordE}
    (l₂ : List UserWordE) (h : l₁.find? p = none) :
    (l₁ ++ l₂).find? p = l₂.find? p := by
  induction l₁ with
  | nil => rfl
  | cons x xs ih =>
    cases hp : p x with
    | true => simp [List.find?_cons, hp] at h
    | false =>
      simp only [List.find?_cons, hp] at h
      simpa [List.find?_cons, hp] using ih h

/-- Closed form of `process_word_actions` on a fully staged add commit. -/
lemma process_add_branch (rawText : String) (userId : Nat)
    (st : UserStateE) (temp : TempState) (r c : String) (l : Nat)
    (hact : temp.action = some "add_translation")
    (hr : temp.russian = some r) (hrne : r ≠ "")
    (hc : temp.category = some c) (hcne : c ≠ "")
    (hl : temp.level = some l) (hlne : l ≠ 0)
    (db' : List UserWordE) (kk : Nat) (sh : List String) :
    process_word_actions rawText userId st db' (some temp) kk sh =
      (match db'.find? (addKey userId (lower rawText) r c l) with
       | some _ => ⟨.addDuplicate,
           (create_card (get_all_words db' userId (some c) (some st))
             (some { temp with russian := none }) kk sh).1, db', none⟩
       | none => ⟨.addInserted,
           (create_card (get_all_words
             (db' ++ [⟨userId, lower (lower rawText), lower r, lower c,
               l, false⟩]) userId (some c) (some st))
             (some { temp with russian := none }) kk sh).1,
           db' ++ [⟨userId, lower (lower rawText), lower r, lower c, l,
             false⟩], none⟩) := by
  have e1 : (temp.action == some "add_word") = false := by
    rw [hact]; decide
  have e2 : (temp.action == some "add_translation") = true := by
    rw [hact]; decide
  have er : pyTruthyStr temp.russian = true := by
    rw [hr]
    simp [pyTruthyStr, hrne]
  have ec : pyTruthyStr temp.category = true := by
    rw [hc]
    simp [pyTruthyStr, hcne]
  have el : pyTruthyNat temp.level = true := by
    rw [hl]
    simp [pyTruthyNat, hlne]
  have hgr : temp.russian.getD "" = r := by rw [hr]; rfl
  have hgc : temp.category.getD "" = c := by rw [hc]; rfl
  have hgl : temp.level.getD 0 = l := by rw [hl]; rfl
  simp only [process_word_actions, Option.getD_some, e1, e2, er, ec, el,
    hgr, hgc, hgl, Bool.not_true, Bool.or_self, Bool.or_false,
    Bool.false_or, Bool.false_eq_true, if_false, if_true]

/-- Closed form of `process_word_actions` on a staged delete commit. -/
lemma process_delete_branch (rawText : String) (userId : Nat)
    (st : UserStateE) (temp : TempState) (c : String)
    (hact : temp.action = some "delete_word")
    (hc : temp.category = some c)
    (db' : List UserWordE) (kk : Nat) (sh : List String) :
    process_word_actions rawText userId st db' (some temp) kk sh =
      (match db'.find? (delKey userId (lower rawText) c temp.level) with
       | some _ => ⟨.deleteSuccess,
           (create_card (get_all_words
             (db'.eraseP (delKey userId (lower rawText) c temp.level))
             userId (some c) (some st)) (some temp) kk sh).1,
           db'.eraseP (delKey userId (lower rawText) c temp.level), none⟩
       | none => ⟨.deleteNotFound,
           (create_card (get_all_words db' userId (some c) (some st))
             (some temp) kk sh).1, db', none⟩) := by
  have e1 : (temp.action == some "add_word") = false := by
    rw [hact]; decide
  have e2 : (temp.action == some "add_translation") = false := by
    rw [hact]; decide
  have e3 : (temp.action == some "delete_word") = true := by
    rw [hact]; decide
  simp only [process_word_actions, Option.getD_some, e1, e2, e3,
    Bool.false_eq_true, if_false, if_true, hc]

/-- C6 counterexample: committing a fresh add ("стол" → "table", owner 1,
category "мебель", level 3, empty store) inserts the entry with
custom-flag `false`, not `true` as the claim states. -/
theorem add_commit_custom_flag_counterexample :
    (process_word_actions "table" 1 ⟨some 3, some "мебель"⟩ []
      (some addTemp) 0 []).outcome = .addInserted ∧
    (process_word_actions "table" 1 ⟨some 3, some "мебель"⟩ []
      (some addTemp) 0 []).db =
      [⟨1, "table", "стол", "мебель", 3, false⟩] ∧
    ((process_word_actions "table" 1 ⟨some 3, some "мебель"⟩ []
      (some addTemp) 0 []).db.all (fun w => w.is_custom == false))
      = true := by
  decide

/-- C6 (amended: the inserted entry carries the store's default
custom-flag `false`, not `true`): committing a staged add with an entry
matching (owner, lowercased word, lowercased translation, lowercased
category, level) already present reports a duplicate and leaves the store
unchanged; otherwise exactly one new normalized entry (custom-flag
`false`) is appended, and resubmitting the same pair reports a duplicate
and leaves the store unchanged — so the same pair twice yields exactly
one stored entry. -/
theorem add_commit_spec (rawText : String) (userId : Nat)
    (st : UserStateE) (db : List UserWordE) (temp : TempState)
    (k k2 : Nat) (shuffled shuffled2 : List String)
    (r c : String) (l : Nat)
    (hact : temp.action = some "add_translation")
    (hr : temp.russian = some r) (hrne : r ≠ "")
    (hc : temp.category = some c) (hcne : c ≠ "")
    (hl : temp.level = some l) (hlne : l ≠ 0) :
    ((db.find? (addKey userId (lower rawText) r c l)).isSome = true →
      (process_word_actions rawText userId st db (some temp) k
        shuffled).outcome = .addDuplicate ∧
      (process_word_actions rawText userId st db (some temp) k
        shuffled).db = db ∧
      (process_word_actions rawText userId st db (some temp) k
        shuffled).storage = none) ∧
    (db.find? (addKey userId (lower rawText) r c l) = none →
      (process_word_actions rawText userId st db (some temp) k
        shuffled).outcome = .addInserted ∧
      (process_word_actions rawText userId st db (some temp) k
        shuffled).db = db ++
          [⟨userId, lower (lower rawText), lower r, lower c, l, false⟩] ∧
      (process_word_actions rawText userId st db (some temp) k
        shuffled).storage = none ∧
      ((process_word_actions rawText userId st db (some temp) k
        shuffled).db.countP (addKey userId (lower rawText) r c l)) =
        db.countP (addKey userId (lower rawText) r c l) + 1 ∧
      (process_word_actions rawText userId st
        ((process_word_actions rawText userId st db (some temp) k
          shuffled).db) (some temp) k2 shuffled2).outcome =
        .addDuplicate ∧
      (process_word_actions rawText userId st
        ((process_word_actions rawText userId st db (some temp) k
          shuffled).db) (some temp) k2 shuffled2).db =
        (process_word_actions rawText userId st db (some temp) k
          shuffled).db) := by
  have hkey : addKey userId (lower rawText) r c l
      ⟨userId, lower (lower rawText), lower r, lower c, l, false⟩
      = true := by
    simp [addKey]
  have hres := process_add_branch rawText userId st temp r c l hact hr
    hrne hc hcne hl hlne
  constructor
  · intro hsome
    cases hfind : db.find? (addKey userId (lower rawText) r c l) with
    | none =>
      rw [hfind] at hsome
      simp at hsome
    | some w =>
      rw [hres db k shuffled, hfind]
      exact ⟨rfl, rfl, rfl⟩
  · intro hnone
    have hfind2 : (db ++ [(⟨userId, lower (lower rawText), lower r,
          lower c, l, false⟩ : UserWordE)]).find?
          (addKey userId (lower rawText) r c l) =
        some ⟨userId, lower (lower rawText), lower r, lower c, l,
          false⟩ := by
      rw [find?_append_none _ hnone]
      simp [List.find?_cons, hkey]
    rw [hres db k shuffled, hnone]
    refine ⟨rfl, rfl, rfl, ?_, ?_, ?_⟩
    · simp only [List.countP_append]
      simp [List.countP_cons, hkey]
    · rw [hres _ k2 shuffled2, hfind2]
    · rw [hres _ k2 shuffled2, hfind2]

/-- C6 witness: the concrete scenario add ("стол" → "table") inserts once
and the identical resubmission reports a duplicate. -/
theorem add_commit_spec_witness :
    (process_word_actions "table" 1 ⟨some 3, some "мебель"⟩ []
      (some addTemp) 0 []).outcome = .addInserted ∧
    (process_word_actions "table" 1 ⟨some 3, some "мебель"⟩
      ((process_word_actions "table" 1 ⟨some 3, some "мебель"⟩ []
        (some addTemp) 0 []).db) (some addTemp) 0 []).outcome =
      .addDuplicate ∧
    (process_word_actions "table" 1 ⟨some 3, some "мебель"⟩
      ((process_word_actions "table" 1 ⟨some 3, some "мебель"⟩ []
        (some addTemp) 0 []).db) (some addTemp) 0 []).db =
      (process_word_actions "table" 1 ⟨some 3, some "мебель"⟩ []
        (some addTemp) 0 []).db := by
  have h := (add_commit_spec "table" 1 ⟨some 3, some "мебель"⟩ []
    addTemp 0 0 [] [] "стол" "мебель" 3 rfl rfl (by decide) rfl
    (by decide) rfl (by decide)).2 (by decide)
  exact ⟨h.1, h.2.2.2.2.1, h.2.2.2.2.2⟩

/-- C7: committing a staged delete looks an entry up by owner, translation
equal to the lowercased input text, staged category and staged level — the
foreign word is not part of the key (`delKey`) — removing exactly the
first matching entry on success and leaving the store untouched (with a
`not found` report) otherwise. -/
theorem delete_commit_spec (rawText : String) (userId : Nat)
    (st : UserStateE) (db : List UserWordE) (temp : TempState)
    (k : Nat) (shuffled : List String) (c : String)
    (hact : temp.action = some "delete_word")
    (hc : temp.category = some c) :
    ((db.find? (delKey userId (lower rawText) c temp.level)).isSome
        = true →
      (process_word_actions rawText userId st db (some temp) k
        shuffled).outcome = .deleteSuccess ∧
      (process_word_actions rawText userId st db (some temp) k
        shuffled).db =
        db.eraseP (delKey userId (lower rawText) c temp.level) ∧
      (process_word_actions rawText userId st db (some temp) k
        shuffled).db.length + 1 = db.length ∧
      (process_word_actions rawText userId st db (some temp) k
        shuffled).storage = none) ∧
    (db.find? (delKey userId (lower rawText) c temp.level) = none →
      (process_word_actions rawText userId st db (some temp) k
        shuffled).outcome = .deleteNotFound ∧
      (process_word_actions rawText userId st db (some temp) k
        shuffled).db = db ∧
      (process_word_actions rawText userId st db (some temp) k
        shuffled).storage = none) := by
  have hres := process_delete_branch rawText userId st temp c hact hc db
    k shuffled
  constructor
  · intro hsome
    cases hfind : db.find? (delKey userId (lower rawText) c temp.level)
        with
    | none =>
      rw [hfind] at hsome
      simp at hsome
    | some w =>
      rw [hres, hfind]
      refine ⟨rfl, rfl, ?_, rfl⟩
      have hmem := List.mem_of_find?_eq_some hfind
      have hpw := List.find?_some hfind
      have := List.length_eraseP_of_mem hmem hpw
      have hpos : 0 < db.length := List.length_pos.mpr
        (fun hnil => by simp [hnil] at hmem)
      simp only [this]
      omega
  · intro hnone
    rw [hres, hnone]
    exact ⟨rfl, rfl, rfl⟩

/-- C7 witness: deleting by translation "стол" removes the matching entry;
deleting a translation that is absent leaves the store unchanged. -/
theorem delete_commit_spec_witness :
    ((process_word_actions "стол" 1 ⟨some 3, some "мебель"⟩
      [⟨1, "table", "стол", "мебель", 3, false⟩] (some delTemp) 0
      []).outcome = .deleteSuccess ∧
     (process_word_actions "стол" 1 ⟨some 3, some "мебель"⟩
      [⟨1, "table", "стол", "мебель", 3, false⟩] (some delTemp) 0
      []).db = []) ∧
    ((process_word_actions "шкаф" 1 ⟨some 3, some "мебель"⟩
      [⟨1, "table", "стол", "мебель", 3, false⟩] (some delTemp) 0
      []).outcome = .deleteNotFound ∧
     (process_word_actions "шкаф" 1 ⟨some 3, some "мебель"⟩
      [⟨1, "table", "стол", "мебель", 3, false⟩] (some delTemp) 0
      []).db = [⟨1, "table", "стол", "мебель", 3, false⟩]) := by
  constructor
  · have h := (delete_commit_spec "стол" 1 ⟨some 3, some "мебель"⟩
      [⟨1, "table", "стол", "мебель", 3, false⟩] delTemp 0 [] "мебель"
      rfl rfl).1 (by decide)
    refine ⟨h.1, ?_⟩
    rw [h.2.1]
    decide
  · have h := (delete_commit_spec "шкаф" 1 ⟨some 3, some "мебель"⟩
      [⟨1, "table", "стол", "мебель", 3, false⟩] delTemp 0 [] "мебель"
      rfl rfl).2 (by decide)
    exact ⟨h.1, h.2.1⟩

/-- C8 counterexample: a long-lived state with a category selected but no
level is NOT refused — `add_word` and `delete_word` both set a pending
action (with staged level absent), changing the session state. -/
theorem pending_guard_counterexample :
    add_word (some ⟨none, some "еда"⟩) none ≠ none ∧
    ((add_word (some ⟨none, some "еда"⟩) none).getD {}).action
      = some "add_word" ∧
    delete_word (some ⟨none, some "еда"⟩) none ≠ none ∧
    ((delete_word (some ⟨none, some "еда"⟩) none).getD {}).action
      = some "delete_word" := by
  decide

/-- C8 (amended: only the category is guarded): `add_word` and
`delete_word` refuse as a no-op exactly when the long-lived state is
absent or its category is falsy (absent/empty); the level is never
consulted, so when a category is present the handlers proceed and stage
the pending action with whatever level (possibly absent) the state has. -/
theorem pending_guard_spec (st : Option UserStateE)
    (storage : Option TempState) :
    ((st = none ∨ ∃ s, st = some s ∧ pyTruthyStr s.category = false) →
      add_word st storage = storage ∧ delete_word st storage = storage) ∧
    (∀ s, st = some s → pyTruthyStr s.category = true →
      ((add_word st storage).getD {}).action = some "add_word" ∧
      ((add_word st storage).getD {}).level = s.level ∧
      ((delete_word st storage).getD {}).action = some "delete_word" ∧
      ((delete_word st storage).getD {}).level = s.level) := by
  constructor
  · rintro (rfl | ⟨s, rfl, hcat⟩)
    · exact ⟨rfl, rfl⟩
    · simp [add_word, delete_word, hcat]
  · rintro s rfl hcat
    simp [add_word, delete_word, hcat]

/-- C8 witness: with no category selected (state `⟨some 1, none⟩`) both
handlers leave the session storage unchanged. -/
theorem pending_guard_spec_witness :
    add_word (some ⟨some 1, none⟩) none = none ∧
    delete_word (some ⟨some 1, none⟩) none = none :=
  (pending_guard_spec (some ⟨some 1, none⟩) none).1
    (Or.inr ⟨⟨some 1, none⟩, rfl, rfl⟩)

/-- C10: after any committed add (duplicate or not) and any committed
delete (found or not), a new card is rendered (storing a fresh target in
the session) and then the whole volatile session entry is deleted, so the
resulting storage is `none`; consequently the very next quiz answer, of
any text against the empty storage, takes the `noActiveCard` error path
with no state change. -/
theorem commit_clears_session (rawText : String) (userId : Nat)
    (st : UserStateE) (db : List UserWordE) (temp : TempState)
    (k : Nat) (shuffled : List String) :
    (∀ r c l, temp.action = some "add_translation" →
      temp.russian = some r → r ≠ "" →
      temp.category = some c → c ≠ "" →
      temp.level = some l → l ≠ 0 →
      get_all_words (process_word_actions rawText userId st db
        (some temp) k shuffled).db userId (some c) (some st) ≠ [] →
      (process_word_actions rawText userId st db (some temp) k
        shuffled).storage = none ∧
      (process_word_actions rawText userId st db (some temp) k
        shuffled).card.isSome = true) ∧
    (∀ c, temp.action = some "delete_word" → temp.category = some c →
      get_all_words (process_word_actions rawText userId st db
        (some temp) k shuffled).db userId (some c) (some st) ≠ [] →
      (process_word_actions rawText userId st db (some temp) k
        shuffled).storage = none ∧
      (process_word_actions rawText userId st db (some temp) k
        shuffled).card.isSome = true) ∧
    (∀ (rawText2 : String) (st2 : UserStateE) (db2 : List UserWordE)
        (k2 : Nat) (sh2 : List String),
      process_word_actions rawText2 userId st2 db2 none k2 sh2 =
        ⟨.noActiveCard, none, db2, none⟩) := by
  refine ⟨?_, ?_, ?_⟩
  · intro r c l hact hr hrne hc hcne hl hlne hwords
    have hres := process_add_branch rawText userId st temp r c l hact hr
      hrne hc hcne hl hlne db k shuffled
    cases hfind : db.find? (addKey userId (lower rawText) r c l) with
    | some w =>
      rw [hres, hfind] at hwords ⊢
      refine ⟨rfl, ?_⟩
      rw [create_card_eq _ _ k shuffled hwords]
      rfl
    | none =>
      rw [hres, hfind] at hwords ⊢
      refine ⟨rfl, ?_⟩
      rw [create_card_eq _ _ k shuffled hwords]
      rfl
  · intro c hact hc hwords
    have hres := process_delete_branch rawText userId st temp c hact hc
      db k shuffled
    cases hfind : db.find? (delKey userId (lower rawText) c temp.level)
        with
    | some w =>
      rw [hres, hfind] at hwords ⊢
      refine ⟨rfl, ?_⟩
      rw [create_card_eq _ _ k shuffled hwords]
      rfl
    | none =>
      rw [hres, hfind] at hwords ⊢
      refine ⟨rfl, ?_⟩
      rw [create_card_eq _ _ k shuffled hwords]
      rfl
  · intro rawText2 st2 db2 k2 sh2
    rfl

/-- C10 witness: the concrete scenario add commit clears the session even
though a card was just rendered, and the next quiz answer errors. -/
theorem commit_clears_session_witness :
    ((process_word_actions "table" 1 ⟨some 3, some "мебель"⟩ []
      (some addTemp) 0 []).storage = none ∧
     (process_word_actions "table" 1 ⟨some 3, some "мебель"⟩ []
      (some addTemp) 0 []).card.isSome = true) ∧
    (process_word_actions "bed" 1 ⟨some 3, some "мебель"⟩ []
      none 0 [] = ⟨.noActiveCard, none, [], none⟩) := by
  have h := commit_clears_session "table" 1 ⟨some 3, some "мебель"⟩ []
    addTemp 0 []
  exact ⟨h.1 "стол" "мебель" 3 rfl rfl (by decide) rfl (by decide) rfl
    (by decide) (by decide), h.2.2 "bed" ⟨some 3, some "мебель"⟩ [] 0 []⟩

end Slovanglik
